import Mathlib

/-!
# gee: route groups, middleware selection and the static-file handler

A shallow embedding of `gee.go` (package `gee`).

* Go strings are byte sequences; `+` is list append and `strings.HasPrefix`
  compares a leading slice.
* Go pointers are addresses into a store of objects (`World`).  A method that
  dereferences `nil` panics; a panic is the result `none`.
* A `HandlerFunc` stored in a slice is represented by the identity of the
  function value.
* `router.go` and `context.go` are not part of the sources at hand.  What the
  code calls on them (`newRouter`, `router.addRoute`, `newContext`,
  `Context.Param`) is taken as a parameter; `router.handle`, `Context.Status`
  and `Context.Next` appear only as recorded calls.
-/

namespace Gee

/-! ## Strings -/

/-- Go `string`: an immutable sequence of bytes. -/
abbrev GoString := List UInt8

/-- UTF-8 encoding of one code point (Go source literals are UTF-8). -/
def utf8 (c : Nat) : List UInt8 :=
  if c < 0x80 then [c.toUInt8]
  else if c < 0x800 then [(0xC0 + c / 64).toUInt8, (0x80 + c % 64).toUInt8]
  else if c < 0x10000 then
    [(0xE0 + c / 4096).toUInt8, (0x80 + c / 64 % 64).toUInt8, (0x80 + c % 64).toUInt8]
  else
    [(0xF0 + c / 262144).toUInt8, (0x80 + c / 4096 % 64).toUInt8,
      (0x80 + c / 64 % 64).toUInt8, (0x80 + c % 64).toUInt8]

/-- The Go string written as the literal `s`. -/
def str (s : String) : GoString :=
  s.data.flatMap (fun c => utf8 c.toNat)

/-- Go `strings.HasPrefix(s, prefix)`:
`len(s) >= len(prefix) && s[:len(prefix)] == prefix`. -/
def strings.HasPrefix (s prefix_ : GoString) : Bool :=
  decide (s.length ≥ prefix_.length) && (s.take prefix_.length == prefix_)

/-! ## Data model -/

/-- A `HandlerFunc` value, identified by the function it refers to. -/
abbrev HandlerFunc := Nat

/-- A Go pointer: `nil` or the address of an object in the store. -/
inductive Ptr where
  | nil : Ptr
  | addr (n : Nat) : Ptr
  deriving DecidableEq, Repr

/-- Go `type RouterGroup struct` (the field `prefix` is spelled `prefix_`). -/
structure RouterGroup where
  prefix_ : GoString
  middlewares : List HandlerFunc
  parent : Ptr
  engine : Ptr
  deriving DecidableEq, Repr

/-- Go `type Engine struct`: the embedded `*RouterGroup`, `router` and `groups`.
The two template fields are only touched by `SetFuncMap` and `LoadHTMLGlob`
and are left out. -/
structure Engine where
  RouterGroup : Ptr
  router : Ptr
  groups : List Ptr
  deriving DecidableEq, Repr

/-- One call of `log.Printf`: the format and its arguments. -/
structure LogCall where
  format : GoString
  args : List GoString
  deriving DecidableEq, Repr

/-- The store: the objects behind `*RouterGroup`, `*Engine` and `*router`
pointers (an address is an index), and the calls made to `log.Printf`.
`R` is the state of a router object. -/
structure World (R : Type) where
  groupObjs : List RouterGroup
  engineObjs : List Engine
  routerObjs : List R
  log : List LogCall

/-- The operations of `router.go` used by `gee.go`: `newRouter()` gives the
state of a fresh router, `addRoute r method pattern handler` the state of `r`
after `r.addRoute(method, pattern, handler)`. -/
structure RouterOps (R : Type) where
  newRouter : R
  addRoute : R → GoString → GoString → HandlerFunc → R

variable {R : Type}

/-- The empty store. -/
def World.empty : World R :=
  { groupObjs := [], engineObjs := [], routerObjs := [], log := [] }

/-- Dereference a `*RouterGroup`. -/
def World.group? (w : World R) : Ptr → Option RouterGroup
  | .nil => none
  | .addr n => w.groupObjs[n]?

/-- Dereference a `*Engine`. -/
def World.engine? (w : World R) : Ptr → Option Engine
  | .nil => none
  | .addr n => w.engineObjs[n]?

/-- Dereference a `*router`. -/
def World.router? (w : World R) : Ptr → Option R
  | .nil => none
  | .addr n => w.routerObjs[n]?

/-- Dereference every pointer of a `[]*RouterGroup`. -/
def World.groups? (w : World R) : List Ptr → Option (List RouterGroup)
  | [] => some []
  | p :: ps =>
    match w.group? p, w.groups? ps with
    | some G, some Gs => some (G :: Gs)
    | _, _ => none

/-- Allocation `&RouterGroup{...}`. -/
def World.allocGroup (w : World R) (G : RouterGroup) : World R × Ptr :=
  ({ w with groupObjs := w.groupObjs ++ [G] }, .addr w.groupObjs.length)

/-- Allocation `&Engine{...}`. -/
def World.allocEngine (w : World R) (E : Engine) : World R × Ptr :=
  ({ w with engineObjs := w.engineObjs ++ [E] }, .addr w.engineObjs.length)

/-- Allocation `&router{...}`. -/
def World.allocRouter (w : World R) (r : R) : World R × Ptr :=
  ({ w with routerObjs := w.routerObjs ++ [r] }, .addr w.routerObjs.length)

/-- Store through a `*RouterGroup`. -/
def World.setGroup (w : World R) (p : Ptr) (G : RouterGroup) : Option (World R) :=
  match p with
  | .nil => none
  | .addr n =>
    if n < w.groupObjs.length then some { w with groupObjs := w.groupObjs.set n G }
    else none

/-- Store through a `*Engine`. -/
def World.setEngine (w : World R) (p : Ptr) (E : Engine) : Option (World R) :=
  match p with
  | .nil => none
  | .addr n =>
    if n < w.engineObjs.length then some { w with engineObjs := w.engineObjs.set n E }
    else none

/-- Store through a `*router`. -/
def World.setRouter (w : World R) (p : Ptr) (r : R) : Option (World R) :=
  match p with
  | .nil => none
  | .addr n =>
    if n < w.routerObjs.length then some { w with routerObjs := w.routerObjs.set n r }
    else none

/-- The call `log.Printf(format, args...)`. -/
def World.logPrintf (w : World R) (format : GoString) (args : List GoString) : World R :=
  { w with log := w.log ++ [{ format := format, args := args }] }

/-! ## `gee.go` -/

/-- Go `func New() *Engine`.
```
engine := &Engine{router: newRouter()}
engine.RouterGroup = &RouterGroup{engine: engine}
engine.groups = []*RouterGroup{engine.RouterGroup}
return &Engine{router: newRouter()}
``` -/
def New (ops : RouterOps R) (w : World R) : Option (World R × Ptr) :=
  let (w1, r1) := w.allocRouter ops.newRouter
  let (w2, engine) := w1.allocEngine { RouterGroup := .nil, router := r1, groups := [] }
  let (w3, g) := w2.allocGroup { prefix_ := [], middlewares := [], parent := .nil, engine := engine }
  match w3.engine? engine with
  | none => none
  | some E =>
    match w3.setEngine engine { E with RouterGroup := g } with
    | none => none
    | some w4 =>
      match w4.engine? engine with
      | none => none
      | some E4 =>
        match w4.setEngine engine { E4 with groups := [E4.RouterGroup] } with
        | none => none
        | some w5 =>
          let (w6, r2) := w5.allocRouter ops.newRouter
          some (w6.allocEngine { RouterGroup := .nil, router := r2, groups := [] })

/-- Go `func (group *RouterGroup) Group(prefix string) *RouterGroup`. -/
def RouterGroup.Group (w : World R) (group : Ptr) (prefix_ : GoString) :
    Option (World R × Ptr) :=
  match w.group? group with
  | none => none
  | some G =>
    let engine := G.engine
    let (w1, newGroup) := w.allocGroup
      { prefix_ := G.prefix_ ++ prefix_, middlewares := [], parent := group, engine := engine }
    match w1.engine? engine with
    | none => none
    | some E =>
      match w1.setEngine engine { E with groups := E.groups ++ [newGroup] } with
      | none => none
      | some w2 => some (w2, newGroup)

/-- Go `func (group *RouterGroup) addRoute(method string, comp string, handler HandlerFunc)`. -/
def RouterGroup.addRoute (ops : RouterOps R) (w : World R) (group : Ptr)
    (method comp : GoString) (handler : HandlerFunc) : Option (World R) :=
  match w.group? group with
  | none => none
  | some G =>
    let pattern := G.prefix_ ++ comp
    let w1 := w.logPrintf (str "Route %4s - %s") [method, pattern]
    match w1.engine? G.engine with
    | none => none
    | some E =>
      match w1.router? E.router with
      | none => none
      | some r => w1.setRouter E.router (ops.addRoute r method pattern handler)

/-- Go `func (group *RouterGroup) GET(pattern string, handler HandlerFunc)`. -/
def RouterGroup.GET (ops : RouterOps R) (w : World R) (group : Ptr)
    (pattern : GoString) (handler : HandlerFunc) : Option (World R) :=
  RouterGroup.addRoute ops w group (str "GET") pattern handler

/-- Go `func (group *RouterGroup) POST(pattern string, handler HandlerFunc)`. -/
def RouterGroup.POST (ops : RouterOps R) (w : World R) (group : Ptr)
    (pattern : GoString) (handler : HandlerFunc) : Option (World R) :=
  RouterGroup.addRoute ops w group (str "POST") pattern handler

/-- Go `func (group *RouterGroup) Use(middlewares ...HandlerFunc)`. -/
def RouterGroup.Use (w : World R) (group : Ptr) (middlewares : List HandlerFunc) :
    Option (World R) :=
  match w.group? group with
  | none => none
  | some G => w.setGroup group { G with middlewares := G.middlewares ++ middlewares }

/-- The call `e.Group(prefix)` on an `*Engine`: the method is promoted from the
embedded `*RouterGroup`. -/
def Engine.Group (w : World R) (e : Ptr) (prefix_ : GoString) : Option (World R × Ptr) :=
  match w.engine? e with
  | none => none
  | some E => RouterGroup.Group w E.RouterGroup prefix_

/-- The call `e.Use(middlewares...)` on an `*Engine`, promoted likewise. -/
def Engine.Use (w : World R) (e : Ptr) (middlewares : List HandlerFunc) : Option (World R) :=
  match w.engine? e with
  | none => none
  | some E => RouterGroup.Use w E.RouterGroup middlewares

/-- Go `func (engine *Engine) addRoute(method string, pattern string, handler HandlerFunc)`. -/
def Engine.addRoute (ops : RouterOps R) (w : World R) (engine : Ptr)
    (method pattern : GoString) (handler : HandlerFunc) : Option (World R) :=
  match w.engine? engine with
  | none => none
  | some E =>
    match w.router? E.router with
    | none => none
    | some r => w.setRouter E.router (ops.addRoute r method pattern handler)

/-- Go `func (engine *Engine) GET(pattern string, handler HandlerFunc)`. -/
def Engine.GET (ops : RouterOps R) (w : World R) (engine : Ptr)
    (pattern : GoString) (handler : HandlerFunc) : Option (World R) :=
  Engine.addRoute ops w engine (str "GET") pattern handler

/-- Go `func (engine *Engine) POST(pattern string, handler HandlerFunc)`. -/
def Engine.POST (ops : RouterOps R) (w : World R) (engine : Ptr)
    (pattern : GoString) (handler : HandlerFunc) : Option (World R) :=
  Engine.addRoute ops w engine (str "POST") pattern handler

/-! ## Requests -/

/-- Go `url.URL`: the field read by `ServeHTTP`. -/
structure URL where
  Path : GoString
  deriving DecidableEq, Repr

/-- Go `http.Request`: the field read by `ServeHTTP`. -/
structure Request where
  URL : URL
  deriving DecidableEq, Repr

/-- Go `http.ResponseWriter`, identified by the value passed in. -/
abbrev ResponseWriter := Nat

/-- Go `type Context struct`, declared in `context.go`: the fields that `gee.go`
reads or writes, and `rest` for all the others. -/
structure Context (C : Type) where
  Writer : ResponseWriter
  Req : Request
  handlers : List HandlerFunc
  engine : Ptr
  rest : C

variable {C : Type}

/-- The loop of `ServeHTTP`:
```
for _, group := range engine.groups {
    if strings.HasPrefix(request.URL.Path, group.prefix) {
        middlewares = append(middlewares, group.middlewares...)
    }
}
``` -/
def Engine.ServeHTTP.loop (w : World R) (request : Request) :
    List Ptr → List HandlerFunc → Option (List HandlerFunc)
  | [], middlewares => some middlewares
  | group :: rest, middlewares =>
    match w.group? group with
    | none => none
    | some G =>
      if strings.HasPrefix request.URL.Path G.prefix_ then
        Engine.ServeHTTP.loop w request rest (middlewares ++ G.middlewares)
      else
        Engine.ServeHTTP.loop w request rest middlewares

/-- Go `func (engine *Engine) ServeHTTP(writer http.ResponseWriter, request *http.Request)`.
The result is the call the function ends with, `engine.router.handle(c)`: the
router pointer and the context `c`.  `newContext` is the constructor of
`context.go`. -/
def Engine.ServeHTTP (newContext : ResponseWriter → Request → Context C) (w : World R)
    (engine : Ptr) (writer : ResponseWriter) (request : Request) :
    Option (Ptr × Context C) :=
  match w.engine? engine with
  | none => none
  | some E =>
    match Engine.ServeHTTP.loop w request E.groups [] with
    | none => none
    | some middlewares =>
      let c := newContext writer request
      let c := { c with handlers := middlewares }
      let c := { c with engine := engine }
      some (E.router, c)

/-! ## The static-file handler -/

/-- Go `http.File`, identified by the value returned. -/
abbrev File := Nat

/-- Go `http.FileSystem`: `Open name` is `none` when `fs.Open(name)` returns an
error. -/
structure FileSystem where
  Open : GoString → Option File

/-- Go `http.StatusNotFound`. -/
def http.StatusNotFound : Nat := 404

/-- What a handler does to its collaborators, call by call.  `ServeHTTP p w r`
is `fileServer.ServeHTTP(w, r)` for
`fileServer = http.StripPrefix(p, http.FileServer(fs))`. -/
inductive Call where
  | Param (key : GoString) : Call
  | Open (name : GoString) : Call
  | Status (code : Nat) : Call
  | ServeHTTP (absolutePath : GoString) (writer : ResponseWriter) (req : Request) : Call
  | Next : Call
  deriving DecidableEq, Repr

/-- Go `func (group *RouterGroup) createStaticHandler(relativePath string, fs http.FileSystem) HandlerFunc`.
The result is the closure, as the calls it makes when run on a context.
`pathJoin` is `path.Join`, `Param c key` the value of `c.Param(key)`. -/
def RouterGroup.createStaticHandler (pathJoin : List GoString → GoString)
    (Param : Context C → GoString → GoString) (w : World R) (group : Ptr)
    (relativePath : GoString) (fs : FileSystem) : Option (Context C → List Call) :=
  match w.group? group with
  | none => none
  | some G =>
    let absolutePath := pathJoin [G.prefix_, relativePath]
    some fun c =>
      let file := Param c (str "filepath")
      match fs.Open file with
      | none =>
        [Call.Param (str "filepath"), Call.Open file, Call.Status http.StatusNotFound]
      | some _ =>
        [Call.Param (str "filepath"), Call.Open file, Call.ServeHTTP absolutePath c.Writer c.Req]

/-! ## Specification side -/

/-- The spec's `middlewareFor(path)`: the concatenation, in the order of the
group list, of the middleware of every group whose prefix is a string-prefix of
`path`. -/
def middlewareFor (groups : List RouterGroup) (path : GoString) : List HandlerFunc :=
  (groups.filter fun g => decide (g.prefix_ <+: path)).flatMap fun g => g.middlewares

/-! ## Call sequences -/

/-- Any sequence of the store-changing calls of `gee.go`, in any order: `New`,
`Group`, `Use`, a group's `addRoute` (so `GET` and `POST`) and the engine's own
`addRoute`.  The list holds the groups returned by the `Group` calls made on
groups of the engine `e`, in call order. -/
inductive SetupCalls (ops : RouterOps R) (e : Ptr) : World R → List Ptr → World R → Prop where
  | done (w : World R) : SetupCalls ops e w [] w
  | Group {w w1 w2 : World R} {g ng : Ptr} {G : RouterGroup} {p : GoString} {rest : List Ptr} :
      w.group? g = some G → G.engine = e → RouterGroup.Group w g p = some (w1, ng) →
      SetupCalls ops e w1 rest w2 → SetupCalls ops e w (ng :: rest) w2
  | GroupElsewhere {w w1 w2 : World R} {g ng : Ptr} {G : RouterGroup} {p : GoString}
      {rest : List Ptr} :
      w.group? g = some G → G.engine ≠ e → RouterGroup.Group w g p = some (w1, ng) →
      SetupCalls ops e w1 rest w2 → SetupCalls ops e w rest w2
  | Use {w w1 w2 : World R} {g : Ptr} {ms : List HandlerFunc} {rest : List Ptr} :
      RouterGroup.Use w g ms = some w1 →
      SetupCalls ops e w1 rest w2 → SetupCalls ops e w rest w2
  | addRoute {w w1 w2 : World R} {g : Ptr} {method comp : GoString} {h : HandlerFunc}
      {rest : List Ptr} :
      RouterGroup.addRoute ops w g method comp h = some w1 →
      SetupCalls ops e w1 rest w2 → SetupCalls ops e w rest w2
  | engineAddRoute {w w1 w2 : World R} {e1 : Ptr} {method pattern : GoString} {h : HandlerFunc}
      {rest : List Ptr} :
      Engine.addRoute ops w e1 method pattern h = some w1 →
      SetupCalls ops e w1 rest w2 → SetupCalls ops e w rest w2
  | New {w w1 w2 : World R} {e1 : Ptr} {rest : List Ptr} :
      Gee.New ops w = some (w1, e1) →
      SetupCalls ops e w1 rest w2 → SetupCalls ops e w rest w2

/-! ## Group trees and reachable stores -/

/-- `ParentOf w a d`: the group at `d` is live and its `parent` field is `a`. -/
def ParentOf (w : World R) (a d : Ptr) : Prop :=
  ∃ D, w.group? d = some D ∧ D.parent = a

/-- `Ancestor w a d`: `a` is the parent of `d`, or the parent of its parent, and
so on. -/
def Ancestor (w : World R) : Ptr → Ptr → Prop :=
  Relation.TransGen (ParentOf w)

/-- A well-formed initial engine `e`: its group list is `[root]`, and the root
has the empty prefix, no parent, and `e` as its engine. -/
def InitialEngine (w : World R) (e : Ptr) : Prop :=
  ∃ E root Rt, w.engine? e = some E ∧ E.groups = [root] ∧ w.group? root = some Rt ∧
    Rt.prefix_ = [] ∧ Rt.parent = .nil ∧ Rt.engine = e

/-- The stores reached from a well-formed initial engine `e` by `Group` and
`Use` calls on groups of `e`. -/
inductive Reachable (e : Ptr) : World R → Prop where
  | init {w : World R} : InitialEngine w e → Reachable e w
  | Group {w w1 : World R} {E : Engine} {g ng : Ptr} {p : GoString} :
      Reachable e w → w.engine? e = some E → g ∈ E.groups →
      RouterGroup.Group w g p = some (w1, ng) → Reachable e w1
  | Use {w w1 : World R} {E : Engine} {g : Ptr} {ms : List HandlerFunc} :
      Reachable e w → w.engine? e = some E → g ∈ E.groups →
      RouterGroup.Use w g ms = some w1 → Reachable e w1

/-- The invariant of reachable stores: every entry of the group list of `e` is
a live group of `e`; the first has no parent, every later one has its parent
earlier in the list, with a prefix that is a prefix of its own. -/
def GroupsOrdered (w : World R) (e : Ptr) : Prop :=
  ∃ E, w.engine? e = some E ∧
    ∀ (i : Nat) (g : Ptr), E.groups[i]? = some g →
      ∃ G, w.group? g = some G ∧ G.engine = e ∧
        ((i = 0 ∧ G.parent = .nil) ∨
          (∃ (j : Nat) (P : RouterGroup), j < i ∧ E.groups[j]? = some G.parent ∧ w.group? G.parent = some P ∧
            P.prefix_ <+: G.prefix_))

/-! ## Example stores -/

/-- A router that records the registrations it receives. -/
def logRouter : RouterOps (List (GoString × GoString × HandlerFunc)) where
  newRouter := []
  addRoute := fun r method pattern handler => r ++ [(method, pattern, handler)]

/-- A context constructor with no further fields. -/
def unitContext (writer : ResponseWriter) (request : Request) : Context Unit :=
  { Writer := writer, Req := request, handlers := [], engine := .nil, rest := () }

/-- A request for `path`. -/
def requestFor (path : String) : Request := { URL := { Path := str path } }

/-- One engine with its root group and a group `/v1` carrying middleware `1`. -/
def exampleWorld : World (List (GoString × GoString × HandlerFunc)) where
  groupObjs :=
    [ { prefix_ := [], middlewares := [], parent := .nil, engine := .addr 0 },
      { prefix_ := str "/v1", middlewares := [1], parent := .addr 0, engine := .addr 0 } ]
  engineObjs := [ { RouterGroup := .addr 0, router := .addr 0, groups := [.addr 0, .addr 1] } ]
  routerObjs := [ [] ]
  log := []

/-- One engine with its root group only, as `New` sets out to build it. -/
def rootWorld : World (List (GoString × GoString × HandlerFunc)) where
  groupObjs := [ { prefix_ := [], middlewares := [], parent := .nil, engine := .addr 0 } ]
  engineObjs := [ { RouterGroup := .addr 0, router := .addr 0, groups := [.addr 0] } ]
  routerObjs := [ [] ]
  log := []

/-- Whether a call is a call of the file server. -/
def Call.isServeHTTP : Call → Bool
  | .ServeHTTP _ _ _ => true
  | _ => false

/-- A file system that holds the single file `css/a.css`. -/
def exampleFS : FileSystem where
  Open := fun name => if name = str "css/a.css" then some 1 else none

/-- A context whose `rest` is the value bound to the parameter `filepath`. -/
def contextWithFile (file : String) : Context GoString :=
  { Writer := 7, Req := requestFor "/v1/assets/x", handlers := [], engine := .addr 0,
    rest := str file }

/-- The value of `c.Param(key)` for such a context. -/
def fileParam (c : Context GoString) (key : GoString) : GoString :=
  if key = str "filepath" then c.rest else []

/-- Joining path elements that need no cleaning. -/
def joinPlain (elems : List GoString) : GoString := elems.flatten

/-- One engine with four groups: the root with middleware `10, 11`, `/v1` with
`1`, `/v2` with `2`, and `/v1/admin`, a child of `/v1`, with `3`. -/
def nestedWorld : World (List (GoString × GoString × HandlerFunc)) where
  groupObjs :=
    [ { prefix_ := [], middlewares := [10, 11], parent := .nil, engine := .addr 0 },
      { prefix_ := str "/v1", middlewares := [1], parent := .addr 0, engine := .addr 0 },
      { prefix_ := str "/v2", middlewares := [2], parent := .addr 0, engine := .addr 0 },
      { prefix_ := str "/v1/admin", middlewares := [3], parent := .addr 1, engine := .addr 0 } ]
  engineObjs :=
    [ { RouterGroup := .addr 0, router := .addr 0,
        groups := [.addr 0, .addr 1, .addr 2, .addr 3] } ]
  routerObjs := [ [] ]
  log := []

/-- A setup call: `g.Group(p)` or `g.Use(ms...)`. -/
inductive Op where
  | Group (g : Ptr) (p : GoString) : Op
  | Use (g : Ptr) (ms : List HandlerFunc) : Op

/-- Run setup calls, each on a group of the engine `e`, one after the other. -/
def runOps (e : Ptr) : World R → List Op → Option (World R)
  | w, [] => some w
  | w, op :: ops =>
    match w.engine? e with
    | none => none
    | some E =>
      match op with
      | .Group g p =>
        if g ∈ E.groups then
          match RouterGroup.Group w g p with
          | none => none
          | some (w1, _) => runOps e w1 ops
        else none
      | .Use g ms =>
        if g ∈ E.groups then
          match RouterGroup.Use w g ms with
          | none => none
          | some w1 => runOps e w1 ops
        else none

/-- The setup calls that build `nestedWorld` from `rootWorld`. -/
def nestedSetup : List Op :=
  [ .Group (.addr 0) (str "/v1"), .Group (.addr 0) (str "/v2"), .Group (.addr 1) (str "/admin"),
    .Use (.addr 0) [10, 11], .Use (.addr 1) [1], .Use (.addr 2) [2], .Use (.addr 3) [3] ]

/-- The example store after `Group("/v2")` on the root. -/
def setupWorld1 : World (List (GoString × GoString × HandlerFunc)) where
  groupObjs := exampleWorld.groupObjs ++
    [ { prefix_ := str "/v2", middlewares := [], parent := .addr 0, engine := .addr 0 } ]
  engineObjs :=
    [ { RouterGroup := .addr 0, router := .addr 0, groups := [.addr 0, .addr 1, .addr 2] } ]
  routerObjs := [ [] ]
  log := []

/-- Then `Use(4)` on `/v1`. -/
def setupWorld2 : World (List (GoString × GoString × HandlerFunc)) where
  groupObjs :=
    [ { prefix_ := [], middlewares := [], parent := .nil, engine := .addr 0 },
      { prefix_ := str "/v1", middlewares := [1, 4], parent := .addr 0, engine := .addr 0 },
      { prefix_ := str "/v2", middlewares := [], parent := .addr 0, engine := .addr 0 } ]
  engineObjs := setupWorld1.engineObjs
  routerObjs := [ [] ]
  log := []

/-- Then `GET("/", 5)` on the root. -/
def setupWorld3 : World (List (GoString × GoString × HandlerFunc)) where
  groupObjs := setupWorld2.groupObjs
  engineObjs := setupWorld1.engineObjs
  routerObjs := [ [(str "GET", str "/", 5)] ]
  log := [ { format := str "Route %4s - %s", args := [str "GET", str "/"] } ]

/-- Then `Group("/admin")` on `/v1`. -/
def setupWorld : World (List (GoString × GoString × HandlerFunc)) where
  groupObjs := setupWorld2.groupObjs ++
    [ { prefix_ := str "/v1/admin", middlewares := [], parent := .addr 1, engine := .addr 0 } ]
  engineObjs :=
    [ { RouterGroup := .addr 0, router := .addr 0,
        groups := [.addr 0, .addr 1, .addr 2, .addr 3] } ]
  routerObjs := setupWorld3.routerObjs
  log := setupWorld3.log

/-! ## Lemmas -/

theorem HasPrefix_iff (s p : GoString) : strings.HasPrefix s p = true ↔ p <+: s := by
  unfold strings.HasPrefix
  rw [List.prefix_iff_eq_take]
  constructor
  · intro h
    simp only [Bool.and_eq_true, beq_iff_eq] at h
    exact h.2.symm
  · intro h
    simp only [Bool.and_eq_true, beq_iff_eq, decide_eq_true_eq]
    refine ⟨?_, h.symm⟩
    have := congrArg List.length h
    simp only [List.length_take] at this
    omega

theorem loop_eq (w : World R) (request : Request) :
    ∀ (ptrs : List Ptr) (gs : List RouterGroup) (acc : List HandlerFunc),
      w.groups? ptrs = some gs →
      Engine.ServeHTTP.loop w request ptrs acc
        = some (acc ++ middlewareFor gs request.URL.Path) := by
  intro ptrs
  induction ptrs with
  | nil =>
    intro gs acc h
    simp only [World.groups?, Option.some.injEq] at h
    subst h
    simp [Engine.ServeHTTP.loop, middlewareFor]
  | cons p ps ih =>
    intro gs acc h
    unfold World.groups? at h
    cases hp : w.group? p with
    | none => simp [hp] at h
    | some G =>
      cases hps : w.groups? ps with
      | none => simp [hp, hps] at h
      | some Gs =>
        simp only [hp, hps, Option.some.injEq] at h
        subst h
        unfold Engine.ServeHTTP.loop
        simp only [hp]
        by_cases hm : strings.HasPrefix request.URL.Path G.prefix_ = true
        · have hm2 := (HasPrefix_iff _ _).1 hm
          rw [if_pos hm, ih Gs _ hps]
          simp [middlewareFor, List.filter_cons, hm2]
        · have hm2 : ¬ G.prefix_ <+: request.URL.Path := fun h2 => hm ((HasPrefix_iff _ _).2 h2)
          rw [if_neg hm, ih Gs _ hps]
          simp [middlewareFor, List.filter_cons, hm2]

theorem lookup_lt {α : Type} {l : List α} {n : Nat} {a : α} (h : l[n]? = some a) :
    n < l.length := by
  by_contra hn
  rw [List.getElem?_eq_none (Nat.le_of_not_lt hn)] at h
  cases h

theorem Group_eq (w : World R) (g : Ptr) (G : RouterGroup) (E : Engine) (p : GoString)
    (hg : w.group? g = some G) (hE : w.engine? G.engine = some E) :
    ∃ n, G.engine = .addr n ∧ n < w.engineObjs.length ∧
      RouterGroup.Group w g p = some
        ({ groupObjs := w.groupObjs ++
              [{ prefix_ := G.prefix_ ++ p, middlewares := [], parent := g, engine := G.engine }],
           engineObjs := w.engineObjs.set n
              { E with groups := E.groups ++ [.addr w.groupObjs.length] },
           routerObjs := w.routerObjs, log := w.log },
         .addr w.groupObjs.length) := by
  cases he : G.engine with
  | nil => rw [he] at hE; cases hE
  | addr n =>
    rw [he] at hE
    have hn : n < w.engineObjs.length := lookup_lt hE
    refine ⟨n, rfl, hn, ?_⟩
    simp only [World.engine?] at hE
    simp [RouterGroup.Group, hg, World.allocGroup, World.engine?, World.setEngine, he, hE, hn]

theorem Use_eq (w : World R) (g : Ptr) (G : RouterGroup) (ms : List HandlerFunc)
    (hg : w.group? g = some G) :
    ∃ n, g = .addr n ∧ n < w.groupObjs.length ∧
      RouterGroup.Use w g ms = some
        { w with groupObjs := w.groupObjs.set n { G with middlewares := G.middlewares ++ ms } } := by
  cases g with
  | nil => cases hg
  | addr n =>
    have hn : n < w.groupObjs.length := lookup_lt hg
    exact ⟨n, rfl, hn, by simp [RouterGroup.Use, hg, World.setGroup, hn]⟩

theorem New_eq (ops : RouterOps R) (w : World R) :
    New ops w = some
      ({ groupObjs := w.groupObjs ++
            [{ prefix_ := [], middlewares := [], parent := .nil,
               engine := .addr w.engineObjs.length }],
         engineObjs := w.engineObjs ++
            [{ RouterGroup := .addr w.groupObjs.length, router := .addr w.routerObjs.length,
               groups := [.addr w.groupObjs.length] },
             { RouterGroup := .nil, router := .addr (w.routerObjs.length + 1), groups := [] }],
         routerObjs := w.routerObjs ++ [ops.newRouter, ops.newRouter],
         log := w.log },
       .addr (w.engineObjs.length + 1)) := by
  simp [New, World.allocRouter, World.allocEngine, World.allocGroup, World.engine?,
    World.setEngine]

theorem Group_post (w : World R) (g : Ptr) (G : RouterGroup) (E : Engine) (p : GoString)
    (hg : w.group? g = some G) (hE : w.engine? G.engine = some E) :
    ∃ w1 : World R,
      RouterGroup.Group w g p = some (w1, .addr w.groupObjs.length) ∧
      w1.groupObjs = w.groupObjs ++
        [{ prefix_ := G.prefix_ ++ p, middlewares := [], parent := g, engine := G.engine }] ∧
      w1.group? (.addr w.groupObjs.length) = some
        { prefix_ := G.prefix_ ++ p, middlewares := [], parent := g, engine := G.engine } ∧
      (∀ q Q, w.group? q = some Q → w1.group? q = some Q) ∧
      w1.engine? G.engine = some { E with groups := E.groups ++ [.addr w.groupObjs.length] } ∧
      (∀ e, e ≠ G.engine → w1.engine? e = w.engine? e) ∧
      w1.routerObjs = w.routerObjs ∧ w1.log = w.log := by
  obtain ⟨n, he, hn, hG⟩ := Group_eq w g G E p hg hE
  refine ⟨_, hG, rfl, ?_, ?_, ?_, ?_, rfl, rfl⟩
  · simp [World.group?]
  · intro q Q hq
    cases q with
    | nil => cases hq
    | addr m =>
      simp only [World.group?] at hq ⊢
      rw [List.getElem?_append_left (lookup_lt hq)]
      exact hq
  · rw [he]
    simp [World.engine?, hn]
  · intro e hne
    cases e with
    | nil => rfl
    | addr m =>
      have hmn : n ≠ m := fun h => hne (by rw [he, h])
      simp [World.engine?, List.getElem?_set_ne hmn]

theorem Use_post (w : World R) (g : Ptr) (G : RouterGroup) (ms : List HandlerFunc)
    (hg : w.group? g = some G) :
    ∃ w1 : World R,
      RouterGroup.Use w g ms = some w1 ∧
      w1.group? g = some { G with middlewares := G.middlewares ++ ms } ∧
      (∀ q, q ≠ g → w1.group? q = w.group? q) ∧
      w1.engineObjs = w.engineObjs ∧ w1.routerObjs = w.routerObjs ∧ w1.log = w.log := by
  obtain ⟨n, hn, hlt, hU⟩ := Use_eq w g G ms hg
  refine ⟨_, hU, ?_, ?_, rfl, rfl, rfl⟩
  · subst hn
    simp [World.group?, hlt]
  · intro q hq
    subst hn
    cases q with
    | nil => rfl
    | addr m =>
      have hmn : n ≠ m := fun h => hq (by rw [h])
      simp [World.group?, List.getElem?_set_ne hmn]

theorem addRoute_post (ops : RouterOps R) (w : World R) (g : Ptr) (G : RouterGroup)
    (E : Engine) (r : R) (method comp : GoString) (handler : HandlerFunc)
    (hg : w.group? g = some G) (hE : w.engine? G.engine = some E)
    (hr : w.router? E.router = some r) :
    ∃ w1 : World R,
      RouterGroup.addRoute ops w g method comp handler = some w1 ∧
      w1.router? E.router = some (ops.addRoute r method (G.prefix_ ++ comp) handler) ∧
      (∀ q, q ≠ E.router → w1.router? q = w.router? q) ∧
      w1.groupObjs = w.groupObjs ∧ w1.engineObjs = w.engineObjs ∧
      w1.log = w.log ++ [{ format := str "Route %4s - %s", args := [method, G.prefix_ ++ comp] }] := by
  cases hq : E.router with
  | nil => rw [hq] at hr; cases hr
  | addr n =>
    rw [hq] at hr
    have hn : n < w.routerObjs.length := lookup_lt hr
    have hE1 : (w.logPrintf (str "Route %4s - %s") [method, G.prefix_ ++ comp]).engine? G.engine
        = some E := hE
    have hr1 : (w.logPrintf (str "Route %4s - %s") [method, G.prefix_ ++ comp]).router? (.addr n)
        = some r := hr
    refine ⟨{ w with
        routerObjs := w.routerObjs.set n (ops.addRoute r method (G.prefix_ ++ comp) handler),
        log := w.log ++ [{ format := str "Route %4s - %s", args := [method, G.prefix_ ++ comp] }] },
      ?_, ?_, ?_, rfl, rfl, rfl⟩
    · simp only [RouterGroup.addRoute, hg, hE1, hq, hr1]
      simp [World.setRouter, World.logPrintf, hn]
    · simp [World.router?, hn]
    · intro q hne
      cases q with
      | nil => rfl
      | addr m =>
        have hmn : n ≠ m := fun h => hne (by rw [h])
        simp [World.router?, List.getElem?_set_ne hmn]

theorem ServeHTTP_eq (newContext : ResponseWriter → Request → Context C)
    (w : World R) (engine : Ptr) (E : Engine) (gs : List RouterGroup)
    (writer : ResponseWriter) (request : Request)
    (hE : w.engine? engine = some E) (hgs : w.groups? E.groups = some gs) :
    Engine.ServeHTTP newContext w engine writer request
      = some (E.router,
          { newContext writer request with
            handlers := middlewareFor gs request.URL.Path, engine := engine }) := by
  unfold Engine.ServeHTTP
  simp only [hE, loop_eq w request E.groups gs [] hgs, List.nil_append]

theorem middlewareFor_append (l1 l2 : List RouterGroup) (path : GoString) :
    middlewareFor (l1 ++ l2) path = middlewareFor l1 path ++ middlewareFor l2 path := by
  simp [middlewareFor, List.filter_append, List.flatMap_append]

theorem middlewareFor_cons_match (G : RouterGroup) (l : List RouterGroup) (path : GoString)
    (h : G.prefix_ <+: path) :
    middlewareFor (G :: l) path = G.middlewares ++ middlewareFor l path := by
  simp [middlewareFor, List.filter_cons, h]

theorem GroupsOrdered_init (w : World R) (e : Ptr) (h : InitialEngine w e) :
    GroupsOrdered w e := by
  obtain ⟨E, root, Rt, hE, hgr, hroot, _, hpar, heng⟩ := h
  refine ⟨E, hE, ?_⟩
  intro i g hi
  rw [hgr] at hi
  cases i with
  | zero =>
    simp only [List.getElem?_cons_zero, Option.some.injEq] at hi
    subst hi
    exact ⟨Rt, hroot, heng, Or.inl ⟨rfl, hpar⟩⟩
  | succ k => simp at hi

theorem GroupsOrdered_Group (w w1 : World R) (e : Ptr) (E : Engine) (g ng : Ptr)
    (p : GoString) (h : GroupsOrdered w e) (hE : w.engine? e = some E) (hmem : g ∈ E.groups)
    (hG : RouterGroup.Group w g p = some (w1, ng)) : GroupsOrdered w1 e := by
  obtain ⟨E0, hE0, hinv⟩ := h
  rw [hE] at hE0
  cases hE0
  obtain ⟨k, hk⟩ := List.getElem?_of_mem hmem
  obtain ⟨G, hg, heng, _⟩ := hinv k g hk
  subst heng
  obtain ⟨w2, h1, _, h3, h4, h5, _⟩ := Group_post w g G E p hg hE
  rw [h1] at hG
  cases hG
  refine ⟨_, h5, ?_⟩
  intro i q hi
  have hklt : k < E.groups.length := lookup_lt hk
  by_cases hlt : i < E.groups.length
  · rw [show ({ E with groups := E.groups ++ [Ptr.addr w.groupObjs.length] } : Engine).groups
        = E.groups ++ [Ptr.addr w.groupObjs.length] from rfl,
      List.getElem?_append_left hlt] at hi
    obtain ⟨Q, hq, hqe, hcase⟩ := hinv i q hi
    refine ⟨Q, h4 q Q hq, hqe, ?_⟩
    rcases hcase with h0 | ⟨j, P, hj, hjp, hP, hpre⟩
    · exact Or.inl h0
    · refine Or.inr ⟨j, P, hj, ?_, h4 _ P hP, hpre⟩
      show (E.groups ++ [Ptr.addr w.groupObjs.length])[j]? = some Q.parent
      rw [List.getElem?_append_left (by omega)]
      exact hjp
  · have hi2 : (E.groups ++ [Ptr.addr w.groupObjs.length])[i]? = some q := hi
    have hile : i < (E.groups ++ [Ptr.addr w.groupObjs.length]).length := lookup_lt hi2
    simp only [List.length_append, List.length_singleton] at hile
    have hieq : i = E.groups.length := by omega
    subst hieq
    rw [List.getElem?_append_right (Nat.le_refl _)] at hi2
    simp only [Nat.sub_self, List.getElem?_cons_zero, Option.some.injEq] at hi2
    subst hi2
    refine ⟨_, h3, rfl, Or.inr ⟨k, G, hklt, ?_, h4 g G hg, List.prefix_append _ _⟩⟩
    show (E.groups ++ [Ptr.addr w.groupObjs.length])[k]? = some g
    rw [List.getElem?_append_left hklt]
    exact hk

theorem Use_preserves (w w1 : World R) (g : Ptr) (ms : List HandlerFunc)
    (hU : RouterGroup.Use w g ms = some w1) :
    w1.engineObjs = w.engineObjs ∧
    ∀ q Q, w.group? q = some Q →
      ∃ Q1, w1.group? q = some Q1 ∧ Q1.prefix_ = Q.prefix_ ∧ Q1.parent = Q.parent ∧
        Q1.engine = Q.engine := by
  cases hg : w.group? g with
  | none => simp [RouterGroup.Use, hg] at hU
  | some G =>
    obtain ⟨w2, h1, h2, h3, h4, _⟩ := Use_post w g G ms hg
    rw [h1] at hU
    cases hU
    refine ⟨h4, ?_⟩
    intro q Q hq
    by_cases hqg : q = g
    · subst hqg
      rw [hg] at hq
      cases hq
      exact ⟨_, h2, rfl, rfl, rfl⟩
    · exact ⟨Q, by rw [h3 q hqg]; exact hq, rfl, rfl, rfl⟩

theorem engine?_congr (w w1 : World R) (h : w1.engineObjs = w.engineObjs) (e : Ptr) :
    w1.engine? e = w.engine? e := by
  cases e with
  | nil => rfl
  | addr n => simp [World.engine?, h]

theorem GroupsOrdered_Use (w w1 : World R) (e : Ptr) (g : Ptr) (ms : List HandlerFunc)
    (h : GroupsOrdered w e) (hU : RouterGroup.Use w g ms = some w1) : GroupsOrdered w1 e := by
  obtain ⟨E, hE, hinv⟩ := h
  obtain ⟨heq, hpres⟩ := Use_preserves w w1 g ms hU
  refine ⟨E, by rw [engine?_congr w w1 heq]; exact hE, ?_⟩
  intro i q hi
  obtain ⟨Q, hq, hqe, hcase⟩ := hinv i q hi
  obtain ⟨Q1, hq1, hpre1, hpar1, heng1⟩ := hpres q Q hq
  refine ⟨Q1, hq1, by rw [heng1]; exact hqe, ?_⟩
  rcases hcase with ⟨h0, hnil⟩ | ⟨j, P, hj, hjp, hP, hpre⟩
  · exact Or.inl ⟨h0, by rw [hpar1]; exact hnil⟩
  · obtain ⟨P1, hP1, hPpre, _, _⟩ := hpres _ P hP
    exact Or.inr ⟨j, P1, hj, by rw [hpar1]; exact hjp, by rw [hpar1]; exact hP1,
      by rw [hPpre, hpre1]; exact hpre⟩

theorem Reachable_ordered (e : Ptr) (w : World R) (h : Reachable e w) : GroupsOrdered w e := by
  induction h with
  | init h0 => exact GroupsOrdered_init _ e h0
  | Group _ hE hmem hG ih => exact GroupsOrdered_Group _ _ e _ _ _ _ ih hE hmem hG
  | Use _ _ _ hU ih => exact GroupsOrdered_Use _ _ e _ _ ih hU

theorem no_ancestor_of_nil (w : World R) (a : Ptr) : ¬ Ancestor w a .nil := by
  intro h
  cases h with
  | single hp =>
    obtain ⟨D, hD, _⟩ := hp
    cases hD
  | tail _ hp =>
    obtain ⟨D, hD, _⟩ := hp
    cases hD

theorem ancestor_index (w : World R) (e : Ptr) (E : Engine) (hE : w.engine? e = some E)
    (hord : GroupsOrdered w e) (a : Ptr) (A : RouterGroup) (hA : w.group? a = some A)
    (d : Ptr) (h : Ancestor w a d) :
    ∀ (i : Nat) (D : RouterGroup), E.groups[i]? = some d → w.group? d = some D →
      ∃ j : Nat, j < i ∧ E.groups[j]? = some a ∧ A.prefix_ <+: D.prefix_ := by
  obtain ⟨E0, hE0, hinv⟩ := hord
  rw [hE] at hE0
  cases hE0
  induction h with
  | single hp =>
    intro i D hi hD
    obtain ⟨D1, hD1, hpar⟩ := hp
    rw [hD] at hD1
    cases hD1
    obtain ⟨G, hG, _, hcase⟩ := hinv i _ hi
    rw [hD] at hG
    cases hG
    rcases hcase with ⟨_, hnil⟩ | ⟨j, P, hj, hjp, hP, hpre⟩
    · rw [hpar] at hnil
      rw [hnil] at hA
      cases hA
    · rw [hpar] at hjp hP
      rw [hA] at hP
      cases hP
      exact ⟨j, hj, hjp, hpre⟩
  | tail hab hp ih =>
    intro i D hi hD
    obtain ⟨D1, hD1, hpar⟩ := hp
    rw [hD] at hD1
    cases hD1
    obtain ⟨G, hG, _, hcase⟩ := hinv i _ hi
    rw [hD] at hG
    cases hG
    rcases hcase with ⟨_, hnil⟩ | ⟨j, P, hj, hjp, hP, hpre⟩
    · rw [hpar] at hnil
      rw [hnil] at hab
      exact absurd hab (no_ancestor_of_nil w a)
    · rw [hpar] at hjp hP
      obtain ⟨k, hk, hka, hpre2⟩ := ih j P hjp hP
      exact ⟨k, by omega, hka, hpre2.trans hpre⟩

theorem groups?_of_live (w : World R) :
    ∀ ptrs : List Ptr, (∀ (i : Nat) (g : Ptr), ptrs[i]? = some g → ∃ G, w.group? g = some G) →
      ∃ gs, w.groups? ptrs = some gs := by
  intro ptrs
  induction ptrs with
  | nil => intro _; exact ⟨[], rfl⟩
  | cons p ps ih =>
    intro h
    obtain ⟨G, hG⟩ := h 0 p (by simp)
    obtain ⟨gs, hgs⟩ := ih (fun i g hi => h (i + 1) g (by simpa using hi))
    exact ⟨G :: gs, by simp [World.groups?, hG, hgs]⟩

theorem groups?_get (w : World R) :
    ∀ (ptrs : List Ptr) (gs : List RouterGroup), w.groups? ptrs = some gs →
      ∀ (i : Nat) (g : Ptr) (G : RouterGroup),
        ptrs[i]? = some g → w.group? g = some G → gs[i]? = some G := by
  intro ptrs
  induction ptrs with
  | nil => intro gs _ i g G hi; simp at hi
  | cons p ps ih =>
    intro gs h i g G hi hG
    unfold World.groups? at h
    cases hp : w.group? p with
    | none => simp [hp] at h
    | some P =>
      cases hps : w.groups? ps with
      | none => simp [hp, hps] at h
      | some Gs =>
        simp only [hp, hps, Option.some.injEq] at h
        subst h
        cases i with
        | zero =>
          simp only [List.getElem?_cons_zero, Option.some.injEq] at hi
          subst hi
          rw [hp] at hG
          simpa using hG
        | succ k =>
          simp only [List.getElem?_cons_succ] at hi ⊢
          exact ih Gs hps k g G hi hG

theorem split_at {α : Type} :
    ∀ (l : List α) (i : Nat) (x : α), l[i]? = some x →
      ∃ L T, l = L ++ x :: T ∧ L.length = i := by
  intro l
  induction l with
  | nil => intro i x h; simp at h
  | cons y ys ih =>
    intro i x h
    cases i with
    | zero =>
      simp only [List.getElem?_cons_zero, Option.some.injEq] at h
      subst h
      exact ⟨[], ys, rfl, rfl⟩
    | succ k =>
      simp only [List.getElem?_cons_succ] at h
      obtain ⟨L, T, hl, hlen⟩ := ih k x h
      exact ⟨y :: L, T, by rw [hl]; rfl, by simp [hlen]⟩

theorem middlewareFor_order (gs : List RouterGroup) (path : GoString) (j i : Nat)
    (A D : RouterGroup) (hji : j < i) (hA : gs[j]? = some A) (hD : gs[i]? = some D)
    (hAp : A.prefix_ <+: path) (hDp : D.prefix_ <+: path) :
    ∃ X Y Z, middlewareFor gs path = X ++ A.middlewares ++ Y ++ D.middlewares ++ Z := by
  obtain ⟨L, T, hl, hlen⟩ := split_at gs i D hD
  subst hl
  subst hlen
  rw [List.getElem?_append_left hji] at hA
  obtain ⟨L1, L2, hl1, _⟩ := split_at L j A hA
  subst hl1
  refine ⟨middlewareFor L1 path, middlewareFor L2 path, middlewareFor T path, ?_⟩
  rw [middlewareFor_append, middlewareFor_cons_match D T path hDp, middlewareFor_append,
    middlewareFor_cons_match A L2 path hAp]
  simp [List.append_assoc]

theorem Reachable_runOps (e : Ptr) :
    ∀ (ops : List Op) (w w1 : World R), Reachable e w → runOps e w ops = some w1 →
      Reachable e w1 := by
  intro ops
  induction ops with
  | nil =>
    intro w w1 h hrun
    simp only [runOps, Option.some.injEq] at hrun
    subst hrun
    exact h
  | cons op ops ih =>
    intro w w1 h hrun
    unfold runOps at hrun
    cases hE : w.engine? e with
    | none => simp [hE] at hrun
    | some E =>
      simp only [hE] at hrun
      cases op with
      | Group g p =>
        simp only at hrun
        by_cases hmem : g ∈ E.groups
        · rw [if_pos hmem] at hrun
          cases hG : RouterGroup.Group w g p with
          | none => simp [hG] at hrun
          | some res =>
            obtain ⟨w2, ng⟩ := res
            simp only [hG] at hrun
            exact ih w2 w1 (Reachable.Group h hE hmem hG) hrun
        · rw [if_neg hmem] at hrun
          cases hrun
      | Use g ms =>
        simp only at hrun
        by_cases hmem : g ∈ E.groups
        · rw [if_pos hmem] at hrun
          cases hU : RouterGroup.Use w g ms with
          | none => simp [hU] at hrun
          | some w2 =>
            simp only [hU] at hrun
            exact ih w2 w1 (Reachable.Use h hE hmem hU) hrun
        · rw [if_neg hmem] at hrun
          cases hrun

theorem nestedWorld_reachable : Reachable (.addr 0) nestedWorld :=
  Reachable_runOps (.addr 0) nestedSetup rootWorld nestedWorld
    (.init ⟨_, _, _, rfl, rfl, rfl, rfl, rfl, rfl⟩) rfl

theorem nestedWorld_ancestor : Ancestor nestedWorld (.addr 0) (.addr 3) := by
  have h1 : ParentOf nestedWorld (.addr 0) (.addr 1) := ⟨_, rfl, rfl⟩
  have h2 : ParentOf nestedWorld (.addr 1) (.addr 3) := ⟨_, rfl, rfl⟩
  exact Relation.TransGen.tail (Relation.TransGen.single h1) h2

theorem Group_inv (w w1 : World R) (g ng : Ptr) (p : GoString)
    (h : RouterGroup.Group w g p = some (w1, ng)) :
    ∃ G E, w.group? g = some G ∧ w.engine? G.engine = some E := by
  cases hg : w.group? g with
  | none => simp [RouterGroup.Group, hg] at h
  | some G =>
    cases hE : w.engine? G.engine with
    | none =>
      have hE1 : (w.allocGroup ⟨G.prefix_ ++ p, [], g, G.engine⟩).1.engine? G.engine = none := hE
      simp [RouterGroup.Group, hg, hE1] at h
    | some E => exact ⟨G, E, rfl, hE⟩

theorem addRoute_engineObjs (ops : RouterOps R) (w w1 : World R) (g : Ptr)
    (method comp : GoString) (handler : HandlerFunc)
    (h : RouterGroup.addRoute ops w g method comp handler = some w1) :
    w1.engineObjs = w.engineObjs := by
  cases hg : w.group? g with
  | none => simp [RouterGroup.addRoute, hg] at h
  | some G =>
    cases hE : w.engine? G.engine with
    | none =>
      have hE1 : (w.logPrintf (str "Route %4s - %s") [method, G.prefix_ ++ comp]).engine?
          G.engine = none := hE
      simp [RouterGroup.addRoute, hg, hE1] at h
    | some E =>
      cases hr : w.router? E.router with
      | none =>
        have hE1 : (w.logPrintf (str "Route %4s - %s") [method, G.prefix_ ++ comp]).engine?
            G.engine = some E := hE
        have hr1 : (w.logPrintf (str "Route %4s - %s") [method, G.prefix_ ++ comp]).router?
            E.router = none := hr
        simp [RouterGroup.addRoute, hg, hE1, hr1] at h
      | some r =>
        obtain ⟨w2, h1, _, _, _, h5, _⟩ := addRoute_post ops w g G E r method comp handler hg hE hr
        rw [h1] at h
        cases h
        exact h5

theorem Engine_addRoute_engineObjs (ops : RouterOps R) (w w1 : World R) (e : Ptr)
    (method pattern : GoString) (handler : HandlerFunc)
    (h : Engine.addRoute ops w e method pattern handler = some w1) :
    w1.engineObjs = w.engineObjs := by
  unfold Engine.addRoute at h
  cases hE : w.engine? e with
  | none => simp [hE] at h
  | some E =>
    cases hr : w.router? E.router with
    | none => simp [hE, hr] at h
    | some r =>
      simp only [hE, hr] at h
      cases hq : E.router with
      | nil => simp [World.setRouter, hq] at h
      | addr n =>
        simp only [World.setRouter, hq] at h
        by_cases hn : n < w.routerObjs.length
        · rw [if_pos hn] at h
          cases h
          rfl
        · rw [if_neg hn] at h
          cases h

theorem New_engine_frame (ops : RouterOps R) (w w1 : World R) (e1 : Ptr)
    (h : New ops w = some (w1, e1)) (e : Ptr) (E : Engine) (hE : w.engine? e = some E) :
    w1.engine? e = some E := by
  rw [New_eq] at h
  cases h
  cases e with
  | nil => cases hE
  | addr n =>
    simp only [World.engine?] at hE ⊢
    rw [List.getElem?_append_left (lookup_lt hE)]
    exact hE

theorem SetupCalls_groups (ops : RouterOps R) (e : Ptr) {w w2 : World R} {news : List Ptr}
    (h : SetupCalls ops e w news w2) :
    ∀ E, w.engine? e = some E →
      ∃ E2, w2.engine? e = some E2 ∧ E2.groups = E.groups ++ news ∧
        E2.router = E.router ∧ E2.RouterGroup = E.RouterGroup := by
  induction h with
  | done w =>
    intro E hE
    exact ⟨E, hE, by simp, rfl, rfl⟩
  | Group hg he hG _ ih =>
    intro E hE
    subst he
    obtain ⟨w1, h1, _, _, _, h5, _⟩ := Group_post _ _ _ E _ hg hE
    rw [h1] at hG
    cases hG
    obtain ⟨E2, hE2, hgr, hr, hrg⟩ := ih _ h5
    exact ⟨E2, hE2, by rw [hgr]; simp, hr, hrg⟩
  | GroupElsewhere hg hne hG _ ih =>
    intro E hE
    obtain ⟨G1, E1, hg1, hE1⟩ := Group_inv _ _ _ _ _ hG
    rw [hg] at hg1
    cases hg1
    obtain ⟨w1, h1, _, _, _, _, h6, _⟩ := Group_post _ _ _ E1 _ hg hE1
    rw [h1] at hG
    cases hG
    exact ih E (by rw [h6 e (fun h => hne h.symm)]; exact hE)
  | Use hU _ ih =>
    intro E hE
    exact ih E (by rw [engine?_congr _ _ (Use_preserves _ _ _ _ hU).1]; exact hE)
  | addRoute hA _ ih =>
    intro E hE
    exact ih E (by rw [engine?_congr _ _ (addRoute_engineObjs ops _ _ _ _ _ _ hA)]; exact hE)
  | engineAddRoute hA _ ih =>
    intro E hE
    exact ih E (by
      rw [engine?_congr _ _ (Engine_addRoute_engineObjs ops _ _ _ _ _ _ hA)]; exact hE)
  | New hN _ ih =>
    intro E hE
    exact ih E (New_engine_frame ops _ _ _ hN e E hE)

/-! ## Claims -/

/-- C1: for an engine whose group list holds live groups `gs`, `ServeHTTP` ends
with `engine.router.handle(c)` where `c.handlers` is the concatenation, in the
order of `engine.groups`, of the middleware of exactly the groups whose prefix
is a string-prefix of the request path. -/
theorem C1_ServeHTTP_handlers (newContext : ResponseWriter → Request → Context C)
    (w : World R) (engine : Ptr) (E : Engine) (gs : List RouterGroup)
    (writer : ResponseWriter) (request : Request)
    (hE : w.engine? engine = some E) (hgs : w.groups? E.groups = some gs) :
    Engine.ServeHTTP newContext w engine writer request
      = some (E.router,
          { newContext writer request with
            handlers := middlewareFor gs request.URL.Path, engine := engine }) := by
  exact ServeHTTP_eq newContext w engine E gs writer request hE hgs

/-- C1, the spec's scenario: with groups root (no middleware) and `/v1` (M1),
the path `/v1/hello/bob` gets `[M1]` and the path `/unknown` gets the empty
list. -/
theorem C1_ServeHTTP_handlers_witness :
    (Engine.ServeHTTP unitContext exampleWorld (.addr 0) 7 (requestFor "/v1/hello/bob")
      = some (.addr 0,
          { Writer := 7, Req := requestFor "/v1/hello/bob", handlers := [1],
            engine := .addr 0, rest := () }))
    ∧ (Engine.ServeHTTP unitContext exampleWorld (.addr 0) 7 (requestFor "/unknown")
      = some (.addr 0,
          { Writer := 7, Req := requestFor "/unknown", handlers := [],
            engine := .addr 0, rest := () })) := by
  constructor
  · rw [C1_ServeHTTP_handlers unitContext exampleWorld (.addr 0) _ _ 7 _ rfl rfl]
    rfl
  · rw [C1_ServeHTTP_handlers unitContext exampleWorld (.addr 0) _ _ 7 _ rfl rfl]
    rfl

/-- C2 (the code as written): `New()` returns a second, bare engine, not the one
it wired up.  The returned engine has an empty group list and a nil embedded
`RouterGroup`, so `Group` and `Use` called on it panic. -/
theorem C2_New_returns_bare_engine (ops : RouterOps R) (w : World R) :
    ∃ w1 e E, New ops w = some (w1, e) ∧ w1.engine? e = some E ∧
      E.groups = [] ∧ E.RouterGroup = .nil ∧
      (∀ p, Engine.Group w1 e p = none) ∧ (∀ ms, Engine.Use w1 e ms = none) := by
  have hE : ∀ (l : List Engine) (a b : Engine), (l ++ [a, b])[l.length + 1]? = some b := by
    intro l a b
    rw [List.getElem?_append_right (by omega)]
    simp
  refine ⟨_, _, { RouterGroup := .nil, router := .addr (w.routerObjs.length + 1), groups := [] },
    New_eq ops w, hE _ _ _, rfl, rfl, ?_, ?_⟩
  · intro p
    simp only [Engine.Group, World.engine?, hE]
    rfl
  · intro ms
    simp only [Engine.Use, World.engine?, hE]
    rfl

/-- C3: for a live group `g` with a live engine, `g.Group(p)` returns a group
whose prefix is `g.prefix` followed by `p`, whose parent is `g`, whose engine is
`g.engine` and whose middleware list is empty; and `g.Group(a).Group(b)` has the
same prefix as `g.Group(a + b)`. -/
theorem C3_Group_fields (w : World R) (g : Ptr) (G : RouterGroup) (E : Engine) (p : GoString)
    (hg : w.group? g = some G) (hE : w.engine? G.engine = some E) :
    (∃ w1 ng, RouterGroup.Group w g p = some (w1, ng) ∧
      w1.group? ng = some
        { prefix_ := G.prefix_ ++ p, middlewares := [], parent := g, engine := G.engine }) ∧
    (∀ a b : GoString, ∃ w1 g1 w2 g2 w3 g3 G2 G3,
      RouterGroup.Group w g a = some (w1, g1) ∧
      RouterGroup.Group w1 g1 b = some (w2, g2) ∧
      RouterGroup.Group w g (a ++ b) = some (w3, g3) ∧
      w2.group? g2 = some G2 ∧ w3.group? g3 = some G3 ∧ G2.prefix_ = G3.prefix_) := by
  constructor
  · obtain ⟨w1, h1, _, h3, _⟩ := Group_post w g G E p hg hE
    exact ⟨w1, _, h1, h3⟩
  · intro a b
    obtain ⟨w1, h1, _, h13, _, h15, _⟩ := Group_post w g G E a hg hE
    obtain ⟨w2, h2, _, h23, _⟩ := Group_post w1 _ _ _ b h13 h15
    obtain ⟨w3, h3, _, h33, _⟩ := Group_post w g G E (a ++ b) hg hE
    exact ⟨w1, _, w2, _, w3, _, _, _, h1, h2, h3, h23, h33, List.append_assoc _ _ _⟩

/-- C3 at the group `/v1` of the example store: `Group("/admin")` gives a group
with prefix `/v1/admin`, parent `/v1`, the same engine and no middleware. -/
theorem C3_Group_fields_witness :
    ∃ w1 ng, RouterGroup.Group exampleWorld (.addr 1) (str "/admin") = some (w1, ng) ∧
      w1.group? ng = some
        { prefix_ := str "/v1/admin", middlewares := [], parent := .addr 1, engine := .addr 0 } :=
  (C3_Group_fields exampleWorld (.addr 1) _ _ (str "/admin") rfl rfl).1

/-- C4: for a live group `g` whose engine is the live engine `E`, `g.Group(p)`
returns a newly allocated group, live after the call with the fields the call
gave it, and leaves `E.groups` equal to the old list with that group appended;
every other group pointer dereferences as before (so every group that existed
is unchanged and no second group appears), every other engine is unchanged, and
no router object is touched.  Hence after any sequence of store-changing calls
(`New`, `Group`, `Use`, `GET`/`POST`/`addRoute` on any group or engine, in any
order), `E.groups` is the old list followed by the groups returned by the
`Group` calls made on groups of `E`, in call order. -/
theorem C4_Group_appends (ops : RouterOps R) (w : World R) (g : Ptr) (G : RouterGroup)
    (E : Engine) (p : GoString)
    (hg : w.group? g = some G) (hE : w.engine? G.engine = some E) :
    (∃ w1 ng, RouterGroup.Group w g p = some (w1, ng) ∧
      w.group? ng = none ∧
      w1.group? ng = some
        { prefix_ := G.prefix_ ++ p, middlewares := [], parent := g, engine := G.engine } ∧
      w1.engine? G.engine
        = some { RouterGroup := E.RouterGroup, router := E.router, groups := E.groups ++ [ng] } ∧
      (∀ q Q, w.group? q = some Q → w1.group? q = some Q) ∧
      (∀ q, q ≠ ng → w1.group? q = w.group? q) ∧
      (∀ e, e ≠ G.engine → w1.engine? e = w.engine? e) ∧
      w1.routerObjs = w.routerObjs) ∧
    (∀ (news : List Ptr) (w2 : World R), SetupCalls ops G.engine w news w2 →
      ∃ E2, w2.engine? G.engine = some E2 ∧ E2.groups = E.groups ++ news ∧
        E2.router = E.router) := by
  constructor
  · obtain ⟨w1, h1, h2, h3, h4, h5, h6, h7, _⟩ := Group_post w g G E p hg hE
    refine ⟨w1, _, h1, ?_, h3, h5, h4, ?_, h6, h7⟩
    · simp [World.group?]
    · intro q hq
      cases q with
      | nil => rfl
      | addr n =>
        have hn : n ≠ w.groupObjs.length := fun h => hq (by rw [h])
        simp only [World.group?, h2]
        by_cases hlt : n < w.groupObjs.length
        · rw [List.getElem?_append_left hlt]
        · rw [List.getElem?_eq_none (by simp; omega), List.getElem?_eq_none (by omega)]
  · intro news w2 h
    obtain ⟨E2, h1, h2, h3, _⟩ := SetupCalls_groups ops G.engine h E hE
    exact ⟨E2, h1, h2, h3⟩

/-- C4 at the example store: `Group("/v2")` on the root appends the new group,
address 2, to the engine's list `[0, 1]`; and `Group("/v2")`, `Use` on `/v1`,
`GET` on the root, then `Group("/admin")` on `/v1` leave the list as
`[0, 1, 2, 3]`. -/
theorem C4_Group_appends_witness :
    (∃ w1, RouterGroup.Group exampleWorld (.addr 0) (str "/v2") = some (w1, .addr 2) ∧
      w1.group? (.addr 2) = some
        { prefix_ := str "/v2", middlewares := [], parent := .addr 0, engine := .addr 0 } ∧
      w1.engine? (.addr 0)
        = some { RouterGroup := .addr 0, router := .addr 0,
                 groups := [.addr 0, .addr 1, .addr 2] }) ∧
    (∃ w2 E2, SetupCalls logRouter (.addr 0) exampleWorld [.addr 2, .addr 3] w2 ∧
      w2.engine? (.addr 0) = some E2 ∧ E2.groups = [.addr 0, .addr 1, .addr 2, .addr 3]) := by
  have hC := C4_Group_appends logRouter exampleWorld (.addr 0) _ _ (str "/v2") rfl rfl
  constructor
  · obtain ⟨w1, ng, h1, _, h3, h4, _⟩ := hC.1
    have hng : ng = .addr 2 := by
      have h : RouterGroup.Group exampleWorld (.addr 0) (str "/v2")
          = some (_, .addr 2) := rfl
      rw [h] at h1
      cases h1
      rfl
    subst hng
    exact ⟨w1, h1, h3, h4⟩
  · have hcalls : SetupCalls logRouter (.addr 0) exampleWorld [.addr 2, .addr 3] setupWorld :=
      SetupCalls.Group (rfl : exampleWorld.group? (.addr 0) = some _) rfl
        (rfl : RouterGroup.Group exampleWorld (.addr 0) (str "/v2") = some (setupWorld1, .addr 2))
        (SetupCalls.Use
          (rfl : RouterGroup.Use setupWorld1 (.addr 1) [4] = some setupWorld2)
          (SetupCalls.addRoute
            (rfl : RouterGroup.addRoute logRouter setupWorld2 (.addr 0) (str "GET") (str "/") 5
              = some setupWorld3)
            (SetupCalls.Group (rfl : setupWorld3.group? (.addr 1) = some _) rfl
              (rfl : RouterGroup.Group setupWorld3 (.addr 1) (str "/admin")
                = some (setupWorld, .addr 3))
              (SetupCalls.done _))))
    obtain ⟨E2, h1, h2, _⟩ := hC.2 _ _ hcalls
    exact ⟨setupWorld, E2, hcalls, h1, h2⟩

/-- C5: for a live group `g`, `g.Use(a...)` leaves `g.middlewares` equal to the
old list followed by `a`, keeps `g`'s prefix, parent and engine, and changes no
other group, no engine and no router; `Use(a...)` then `Use(b...)` gives the
same store as one `Use` of `a` followed by `b`. -/
theorem C5_Use_appends (w : World R) (g : Ptr) (G : RouterGroup) (a b : List HandlerFunc)
    (hg : w.group? g = some G) :
    (∃ w1, RouterGroup.Use w g a = some w1 ∧
      w1.group? g = some
        { prefix_ := G.prefix_, middlewares := G.middlewares ++ a,
          parent := G.parent, engine := G.engine } ∧
      (∀ q, q ≠ g → w1.group? q = w.group? q) ∧
      w1.engineObjs = w.engineObjs ∧ w1.routerObjs = w.routerObjs) ∧
    (RouterGroup.Use w g a).bind (fun w1 => RouterGroup.Use w1 g b)
      = RouterGroup.Use w g (a ++ b) := by
  constructor
  · obtain ⟨w1, h1, h2, h3, h4, h5, _⟩ := Use_post w g G a hg
    exact ⟨w1, h1, h2, h3, h4, h5⟩
  · obtain ⟨n, hn, hlt, hU⟩ := Use_eq w g G a hg
    obtain ⟨k, hk, _, hU3⟩ := Use_eq w g G (a ++ b) hg
    obtain ⟨w1, h1, h2, _⟩ := Use_post w g G a hg
    obtain ⟨m, hm, _, hU2⟩ := Use_eq w1 g _ b h2
    rw [h1, hU3, Option.some_bind, hU2]
    rw [hU] at h1
    cases h1
    subst hn
    cases hm
    cases hk
    simp [List.set_set, List.append_assoc]

/-- C5 at the group `/v1` of the example store, which carries `[1]`:
`Use(2, 3)` leaves it with `[1, 2, 3]`. -/
theorem C5_Use_appends_witness :
    ∃ w1, RouterGroup.Use exampleWorld (.addr 1) [2, 3] = some w1 ∧
      w1.group? (.addr 1) = some
        { prefix_ := str "/v1", middlewares := [1, 2, 3], parent := .addr 0, engine := .addr 0 } ∧
      (∀ q, q ≠ .addr 1 → w1.group? q = exampleWorld.group? q) ∧
      w1.engineObjs = exampleWorld.engineObjs ∧ w1.routerObjs = exampleWorld.routerObjs :=
  (C5_Use_appends exampleWorld (.addr 1) _ [2, 3] [4] rfl).1

/-- C6: for an engine whose group list starts with a group of empty prefix and
otherwise holds live groups, the handler list `ServeHTTP` builds for any request
path begins with the whole middleware list of that first group. -/
theorem C6_root_middleware_first (newContext : ResponseWriter → Request → Context C)
    (w : World R) (engine : Ptr) (E : Engine) (root : Ptr) (rest : List Ptr)
    (Rt : RouterGroup) (gs : List RouterGroup) (writer : ResponseWriter) (request : Request)
    (hE : w.engine? engine = some E) (hgroups : E.groups = root :: rest)
    (hroot : w.group? root = some Rt) (hempty : Rt.prefix_ = [])
    (hrest : w.groups? rest = some gs) :
    ∃ c, Engine.ServeHTTP newContext w engine writer request = some (E.router, c) ∧
      Rt.middlewares <+: c.handlers := by
  have hgs : w.groups? E.groups = some (Rt :: gs) := by
    rw [hgroups]
    simp [World.groups?, hroot, hrest]
  refine ⟨_, ServeHTTP_eq newContext w engine E _ writer request hE hgs, ?_⟩
  have hp : Rt.prefix_ <+: request.URL.Path := by
    rw [hempty]
    exact List.nil_prefix
  show Rt.middlewares <+: middlewareFor (Rt :: gs) request.URL.Path
  rw [middlewareFor_cons_match Rt gs _ hp]
  exact List.prefix_append _ _

/-- C6 at the store with four groups: whatever the path, the list starts with
the root's `10, 11`. -/
theorem C6_root_middleware_first_witness :
    ∃ c, Engine.ServeHTTP unitContext nestedWorld (.addr 0) 7 (requestFor "/v1/admin/x")
        = some (.addr 0, c) ∧
      [10, 11] <+: c.handlers ∧ c.handlers = [10, 11, 1, 3] :=
  match C6_root_middleware_first unitContext nestedWorld (.addr 0) _ (.addr 0) _ _ _ 7
      (requestFor "/v1/admin/x") rfl rfl rfl rfl rfl with
  | ⟨c, h1, h2⟩ => ⟨c, h1, h2, by cases h1; rfl⟩

/-- C7: for a live group `g` with live engine and router, `g.GET(p, h)` returns
and leaves the engine's router in the state reached by the one call
`addRoute("GET", g.prefix + p, h)`; `g.POST(p, h)` does the same with `"POST"`.
Every other router, every group and every engine is unchanged. -/
theorem C7_GET_POST_register (ops : RouterOps R) (w : World R) (g : Ptr) (G : RouterGroup)
    (E : Engine) (r : R) (p : GoString) (h : HandlerFunc)
    (hg : w.group? g = some G) (hE : w.engine? G.engine = some E)
    (hr : w.router? E.router = some r) :
    (∃ w1, RouterGroup.GET ops w g p h = some w1 ∧
      w1.router? E.router = some (ops.addRoute r (str "GET") (G.prefix_ ++ p) h) ∧
      (∀ q, q ≠ E.router → w1.router? q = w.router? q) ∧
      w1.groupObjs = w.groupObjs ∧ w1.engineObjs = w.engineObjs) ∧
    (∃ w1, RouterGroup.POST ops w g p h = some w1 ∧
      w1.router? E.router = some (ops.addRoute r (str "POST") (G.prefix_ ++ p) h) ∧
      (∀ q, q ≠ E.router → w1.router? q = w.router? q) ∧
      w1.groupObjs = w.groupObjs ∧ w1.engineObjs = w.engineObjs) := by
  constructor
  · obtain ⟨w1, h1, h2, h3, h4, h5, _⟩ := addRoute_post ops w g G E r (str "GET") p h hg hE hr
    exact ⟨w1, h1, h2, h3, h4, h5⟩
  · obtain ⟨w1, h1, h2, h3, h4, h5, _⟩ := addRoute_post ops w g G E r (str "POST") p h hg hE hr
    exact ⟨w1, h1, h2, h3, h4, h5⟩

/-- C7, the spec's scenario: the group obtained from the root by `Group("/v1")`
registers the local pattern `/hello/:name` as `/v1/hello/:name` in the router
of the engine, as its only registration. -/
theorem C7_GET_POST_register_witness :
    ∃ w1 g1 w2, RouterGroup.Group rootWorld (.addr 0) (str "/v1") = some (w1, g1) ∧
      RouterGroup.GET logRouter w1 g1 (str "/hello/:name") 9 = some w2 ∧
      w2.router? (.addr 0) = some [(str "GET", str "/v1/hello/:name", 9)] ∧
      w2.groupObjs = w1.groupObjs ∧ w2.engineObjs = w1.engineObjs := by
  obtain ⟨w1, h1, _⟩ := Group_post rootWorld (.addr 0) _ _ (str "/v1") rfl rfl
  obtain ⟨w2, h2, h3, _, h5, h6⟩ :=
    (C7_GET_POST_register logRouter w1 (.addr 1)
      { prefix_ := str "/v1", middlewares := [], parent := .addr 0, engine := .addr 0 }
      { RouterGroup := .addr 0, router := .addr 0, groups := [.addr 0, .addr 1] } []
      (str "/hello/:name") 9
      (by cases h1; rfl) (by cases h1; rfl) (by cases h1; rfl)).1
  exact ⟨w1, _, w2, h1, h2, h3, h5, h6⟩

/-- C8: for a live group, `createStaticHandler` returns a handler which, run on
any context `c`: when `fs.Open` fails on the bound `filepath` value, calls
`c.Status(404)` and never the file server; when it succeeds, calls the file
server exactly once, on `c.Writer` and `c.Req`, and sets no status.  In neither
case does it call `c.Next()`. -/
theorem C8_static_handler (pathJoin : List GoString → GoString)
    (Param : Context C → GoString → GoString) (w : World R) (group : Ptr) (G : RouterGroup)
    (relativePath : GoString) (fs : FileSystem) (hg : w.group? group = some G) :
    ∃ handler,
      RouterGroup.createStaticHandler pathJoin Param w group relativePath fs = some handler ∧
      ∀ c : Context C,
        (fs.Open (Param c (str "filepath")) = none →
          Call.Status 404 ∈ handler c ∧ (handler c).filter Call.isServeHTTP = []) ∧
        (∀ f, fs.Open (Param c (str "filepath")) = some f →
          (handler c).filter Call.isServeHTTP
            = [Call.ServeHTTP (pathJoin [G.prefix_, relativePath]) c.Writer c.Req] ∧
          ∀ code, Call.Status code ∉ handler c) ∧
        Call.Next ∉ handler c := by
  refine ⟨fun c =>
      match fs.Open (Param c (str "filepath")) with
      | none =>
        [Call.Param (str "filepath"), Call.Open (Param c (str "filepath")),
          Call.Status http.StatusNotFound]
      | some _ =>
        [Call.Param (str "filepath"), Call.Open (Param c (str "filepath")),
          Call.ServeHTTP (pathJoin [G.prefix_, relativePath]) c.Writer c.Req],
    by simp only [RouterGroup.createStaticHandler, hg], ?_⟩
  intro c
  cases hopen : fs.Open (Param c (str "filepath")) with
  | none => simp [hopen, http.StatusNotFound, Call.isServeHTTP]
  | some f => simp [hopen, Call.isServeHTTP]

/-- C8 at the group `/v1` of the example store, serving `/assets` from a file
system that holds only `css/a.css`: a request for `nope.txt` gets status 404
and no file-server call, a request for `css/a.css` gets one file-server call. -/
theorem C8_static_handler_witness :
    ∃ handler,
      RouterGroup.createStaticHandler joinPlain fileParam exampleWorld (.addr 1)
        (str "/assets") exampleFS = some handler ∧
      handler (contextWithFile "nope.txt")
        = [Call.Param (str "filepath"), Call.Open (str "nope.txt"), Call.Status 404] ∧
      handler (contextWithFile "css/a.css")
        = [Call.Param (str "filepath"), Call.Open (str "css/a.css"),
           Call.ServeHTTP (str "/v1/assets") 7 (requestFor "/v1/assets/x")] := by
  obtain ⟨handler, h1, _⟩ :=
    C8_static_handler joinPlain fileParam exampleWorld (.addr 1) _ (str "/assets") exampleFS rfl
  refine ⟨handler, h1, ?_, ?_⟩
  · cases h1
    decide
  · cases h1
    decide

/-- C10, the last clause as stated fails: the group `/v1` of the example store
registers, with the local pattern `0/hello`, a route whose pattern is exactly
the path `/v10/hello`, the path that gets `M1` without being under `/v1/`. -/
theorem C10_counterexample :
    ∃ w1, RouterGroup.GET logRouter exampleWorld (.addr 1) (str "0/hello") 5 = some w1 ∧
      w1.router? (.addr 0) = some [(str "GET", str "/v10/hello", 5)] ∧
      ∃ c, Engine.ServeHTTP unitContext w1 (.addr 0) 7 (requestFor "/v10/hello")
          = some (.addr 0, c) ∧ c.handlers = [1] :=
  ⟨_, rfl, rfl, _, rfl, rfl⟩

/-- C10, amended: matching is by raw string prefix.  With the group `/v1`
carrying `M1`, the paths `/v10/hello` and `/v1abc` get `[M1]`, and `/v1/` is a
string-prefix of neither.  On a group whose prefix is `/v1` or begins with
`/v1/`, `GET` and `POST` with a local pattern that begins with `/` register a
pattern that begins with `/v1/`, and `Group` with a local prefix that begins
with `/` returns a group whose prefix begins with `/v1/`.  Without the leading
`/` this fails: `Group("0")` on `/v1` and then `GET("/hello")` register
`/v10/hello`. -/
theorem C10_raw_prefix_matching :
    (∃ c, Engine.ServeHTTP unitContext exampleWorld (.addr 0) 7 (requestFor "/v10/hello")
        = some (.addr 0, c) ∧ c.handlers = [1]) ∧
    (∃ c, Engine.ServeHTTP unitContext exampleWorld (.addr 0) 7 (requestFor "/v1abc")
        = some (.addr 0, c) ∧ c.handlers = [1]) ∧
    strings.HasPrefix (str "/v10/hello") (str "/v1/") = false ∧
    strings.HasPrefix (str "/v1abc") (str "/v1/") = false ∧
    (∀ (ops : RouterOps R) (w : World R) (g : Ptr) (G : RouterGroup) (E : Engine) (r : R)
      (comp : GoString) (h : HandlerFunc),
      w.group? g = some G →
      (G.prefix_ = str "/v1" ∨ strings.HasPrefix G.prefix_ (str "/v1/") = true) →
      w.engine? G.engine = some E → w.router? E.router = some r →
      strings.HasPrefix (G.prefix_ ++ (str "/" ++ comp)) (str "/v1/") = true ∧
      (∃ w1, RouterGroup.GET ops w g (str "/" ++ comp) h = some w1 ∧
        w1.router? E.router
          = some (ops.addRoute r (str "GET") (G.prefix_ ++ (str "/" ++ comp)) h)) ∧
      (∃ w1, RouterGroup.POST ops w g (str "/" ++ comp) h = some w1 ∧
        w1.router? E.router
          = some (ops.addRoute r (str "POST") (G.prefix_ ++ (str "/" ++ comp)) h))) ∧
    (∀ (w : World R) (g : Ptr) (G : RouterGroup) (E : Engine) (sub : GoString),
      w.group? g = some G →
      (G.prefix_ = str "/v1" ∨ strings.HasPrefix G.prefix_ (str "/v1/") = true) →
      w.engine? G.engine = some E →
      ∃ w1 ng NG, RouterGroup.Group w g (str "/" ++ sub) = some (w1, ng) ∧
        w1.group? ng = some NG ∧ NG.parent = g ∧
        strings.HasPrefix NG.prefix_ (str "/v1/") = true) ∧
    (∃ w1 ng w2, RouterGroup.Group exampleWorld (.addr 1) (str "0") = some (w1, ng) ∧
      RouterGroup.GET logRouter w1 ng (str "/hello") 5 = some w2 ∧
      w2.router? (.addr 0) = some [(str "GET", str "/v10/hello", 5)]) := by
  have hslash : ∀ (P x : GoString),
      (P = str "/v1" ∨ strings.HasPrefix P (str "/v1/") = true) →
      strings.HasPrefix (P ++ (str "/" ++ x)) (str "/v1/") = true := by
    intro P x hP
    rw [HasPrefix_iff]
    rcases hP with hP | hP
    · rw [hP]
      exact ⟨x, rfl⟩
    · exact ((HasPrefix_iff _ _).1 hP).trans (List.prefix_append _ _)
  refine ⟨⟨_, rfl, rfl⟩, ⟨_, rfl, rfl⟩, by decide, by decide, ?_, ?_, ⟨_, _, _, rfl, rfl, rfl⟩⟩
  · intro ops w g G E r comp h hg hp hE hr
    refine ⟨hslash _ _ hp, ?_, ?_⟩
    · obtain ⟨w1, h1, h2, _⟩ :=
        addRoute_post ops w g G E r (str "GET") (str "/" ++ comp) h hg hE hr
      exact ⟨w1, h1, h2⟩
    · obtain ⟨w1, h1, h2, _⟩ :=
        addRoute_post ops w g G E r (str "POST") (str "/" ++ comp) h hg hE hr
      exact ⟨w1, h1, h2⟩
  · intro w g G E sub hg hp hE
    obtain ⟨w1, h1, _, h3, _⟩ := Group_post w g G E (str "/" ++ sub) hg hE
    exact ⟨w1, _, _, h1, h3, rfl, hslash _ _ hp⟩

/-- C10, amended, at the example store: under `/v1` the local pattern `/hello`
is registered as `/v1/hello`, and `Group("/admin")` gives a group under
`/v1/`. -/
theorem C10_raw_prefix_matching_witness :
    (∃ w1, RouterGroup.GET logRouter exampleWorld (.addr 1) (str "/" ++ str "hello") 5
        = some w1 ∧
      w1.router? (.addr 0) = some [(str "GET", str "/v1/hello", 5)]) ∧
    (∃ w1 ng NG, RouterGroup.Group exampleWorld (.addr 1) (str "/" ++ str "admin")
        = some (w1, ng) ∧
      w1.group? ng = some NG ∧ NG.parent = .addr 1 ∧
      strings.HasPrefix NG.prefix_ (str "/v1/") = true) :=
  ⟨((@C10_raw_prefix_matching (List (GoString × GoString × HandlerFunc))).2.2.2.2.1
      logRouter exampleWorld (.addr 1) _ _ [] (str "hello") 5 rfl (Or.inl rfl) rfl rfl).2.1,
   (@C10_raw_prefix_matching (List (GoString × GoString × HandlerFunc))).2.2.2.2.2.1
      exampleWorld (.addr 1) _ _ (str "admin") rfl (Or.inl rfl) rfl⟩

/-- C9: in every store reached from a well-formed initial engine by `Group` and
`Use` calls, the first group of `engine.groups` has no parent and each later one
has its parent earlier in the list, with a prefix that is a string-prefix of its
own.  Hence whenever a
group's prefix matches a path, the prefix of each of its ancestors matches too,
and in the handler list `ServeHTTP` builds, the ancestor's middleware stand
before the descendant's. -/
theorem C9_ancestors_first (newContext : ResponseWriter → Request → Context C)
    (e : Ptr) (w : World R) (h : Reachable e w) :
    ∃ E, w.engine? e = some E ∧
      (∀ g G, E.groups[0]? = some g → w.group? g = some G → G.parent = .nil) ∧
      (∀ (i : Nat) (g : Ptr) (G : RouterGroup),
        0 < i → E.groups[i]? = some g → w.group? g = some G →
        ∃ (j : Nat) (P : RouterGroup), j < i ∧ E.groups[j]? = some G.parent ∧ w.group? G.parent = some P ∧
          P.prefix_ <+: G.prefix_) ∧
      (∀ a d A D path, d ∈ E.groups → Ancestor w a d →
        w.group? a = some A → w.group? d = some D →
        strings.HasPrefix path D.prefix_ = true → strings.HasPrefix path A.prefix_ = true) ∧
      (∀ writer request, ∃ c,
        Engine.ServeHTTP newContext w e writer request = some (E.router, c) ∧
        ∀ a d A D, d ∈ E.groups → Ancestor w a d →
          w.group? a = some A → w.group? d = some D →
          strings.HasPrefix request.URL.Path D.prefix_ = true →
          ∃ X Y Z, c.handlers = X ++ A.middlewares ++ Y ++ D.middlewares ++ Z) := by
  have hord := Reachable_ordered e w h
  obtain ⟨E, hE, hinv⟩ := hord
  have hord : GroupsOrdered w e := ⟨E, hE, hinv⟩
  refine ⟨E, hE, ?_, ?_, ?_, ?_⟩
  · intro g G hg hG
    obtain ⟨G1, hG1, _, hcase⟩ := hinv 0 g hg
    rw [hG] at hG1
    cases hG1
    rcases hcase with ⟨_, hnil⟩ | ⟨j, _, hj, _⟩
    · exact hnil
    · omega
  · intro i g G hi hg hG
    obtain ⟨G1, hG1, _, hcase⟩ := hinv i g hg
    rw [hG] at hG1
    cases hG1
    rcases hcase with ⟨h0, _⟩ | hpar
    · omega
    · exact hpar
  · intro a d A D path hmem hanc hA hD hmatch
    obtain ⟨i, hi⟩ := List.getElem?_of_mem hmem
    obtain ⟨j, _, _, hpre⟩ := ancestor_index w e E hE hord a A hA d hanc i D hi hD
    rw [HasPrefix_iff] at hmatch ⊢
    exact hpre.trans hmatch
  · intro writer request
    obtain ⟨gs, hgs⟩ := groups?_of_live w E.groups (fun i g hi => by
      obtain ⟨G, hG, _⟩ := hinv i g hi
      exact ⟨G, hG⟩)
    refine ⟨_, ServeHTTP_eq newContext w e E gs writer request hE hgs, ?_⟩
    intro a d A D hmem hanc hA hD hmatch
    obtain ⟨i, hi⟩ := List.getElem?_of_mem hmem
    obtain ⟨j, hji, hj, hpre⟩ := ancestor_index w e E hE hord a A hA d hanc i D hi hD
    rw [HasPrefix_iff] at hmatch
    exact middlewareFor_order gs request.URL.Path j i A D hji
      (groups?_get w E.groups gs hgs j a A hj hA) (groups?_get w E.groups gs hgs i d D hi hD)
      (hpre.trans hmatch) hmatch

/-- C9 at the store with four groups, which the setup calls `nestedSetup` build
from a root-only engine: the root is an ancestor of `/v1/admin`, and for the
path `/v1/admin/x` the root's `10, 11` stand before the `3` of `/v1/admin`. -/
theorem C9_ancestors_first_witness :
    Reachable (.addr 0) nestedWorld ∧ Ancestor nestedWorld (.addr 0) (.addr 3) ∧
    ∃ c, Engine.ServeHTTP unitContext nestedWorld (.addr 0) 7 (requestFor "/v1/admin/x")
        = some (.addr 0, c) ∧
      ∃ X Y Z, c.handlers = X ++ [10, 11] ++ Y ++ [3] ++ Z := by
  refine ⟨nestedWorld_reachable, nestedWorld_ancestor, ?_⟩
  obtain ⟨E, hE, _, _, _, h3⟩ :=
    C9_ancestors_first unitContext (.addr 0) nestedWorld nestedWorld_reachable
  obtain ⟨c, hc, hord⟩ := h3 7 (requestFor "/v1/admin/x")
  have hEq : E = ⟨.addr 0, .addr 0, [.addr 0, .addr 1, .addr 2, .addr 3]⟩ :=
    (Option.some.inj hE).symm
  subst hEq
  exact ⟨c, hc, hord (.addr 0) (.addr 3) _ _ (by decide) nestedWorld_ancestor rfl rfl
    (by decide)⟩

end Gee
